import Mathlib

/-!
Verification of the row-interpretation core of `extrair_matriz.py`
(lockout/tagout energy-matrix extractor).

The Python source is shallowly embedded below:
* a spreadsheet cell value is `CellValue` (absence, int, float, text, other);
  a Python float is modelled by its exact rational value together with the
  string Python's default `str` would render for it (`pyStr`), since
  `float.is_integer`, `int(float)` and `str(int)` are exact operations;
* Python strings are Lean `String`s manipulated through their `data` char
  lists; `re.sub(r"\s+", " ", s)` is `collapseWsAux`, `str.strip` is
  `stripWs`, `str.replace` of a one-char pattern is `replaceChar`;
* the `openpyxl` worksheet is a read-only lookup `Worksheet`;
* the `for` loop of `process_workbook` is structural recursion over the
  list of row numbers, with the two fill-down variables threaded as
  arguments; the batch loop of `main` is `runBatchAux`, a file's
  load/convert/process outcome (which may raise) modelled as `Except`.
-/

/-- ASCII fragment of Python's whitespace class (`\s` and `str.strip`):
space, tab, newline, carriage return, vertical tab, form feed. -/
def isPyWs (c : Char) : Bool :=
  c = ' ' || c = '\t' || c = '\n' || c = '\r' || c = '\x0B' || c = '\x0C'

/-- Python `s.replace(a, b)` for a one-character pattern and replacement. -/
def replaceChar (a b : Char) (l : List Char) : List Char :=
  l.map (fun c => if c = a then b else c)

/-- Python `re.sub(r"\s+", " ", s)`: each maximal run of whitespace becomes
one space.  The flag records whether the previous character was whitespace
(so the current run has already emitted its space). -/
def collapseWsAux : List Char → Bool → List Char
  | [], _ => []
  | c :: rest, prevWs =>
    if isPyWs c then
      if prevWs then collapseWsAux rest true
      else ' ' :: collapseWsAux rest true
    else c :: collapseWsAux rest false

/-- Python `s.strip()`: drop whitespace from both ends. -/
def stripWs (l : List Char) : List Char :=
  ((l.dropWhile isPyWs).reverse.dropWhile isPyWs).reverse

/-- Python `str.lower` on one character (ASCII and Latin-1 letters; the
characters appearing in this program's data and tokens). -/
def pyCharLower (c : Char) : Char :=
  if 'A' ≤ c ∧ c ≤ 'Z' then Char.ofNat (c.toNat + 32)
  else if ('À' ≤ c ∧ c ≤ 'Þ') ∧ c ≠ '×' then Char.ofNat (c.toNat + 32)
  else c

/-- Python `str.upper` on one character (ASCII and Latin-1 letters). -/
def pyCharUpper (c : Char) : Char :=
  if 'a' ≤ c ∧ c ≤ 'z' then Char.ofNat (c.toNat - 32)
  else if ('à' ≤ c ∧ c ≤ 'þ') ∧ c ≠ '÷' then Char.ofNat (c.toNat - 32)
  else c

/-- Python `s.lower()`. -/
def pyLower (s : String) : String :=
  String.mk (s.data.map pyCharLower)

/-- Python `s.upper()`. -/
def pyUpper (s : String) : String :=
  String.mk (s.data.map pyCharUpper)

/-- The cleanup pipeline of `normalize_cell`, lines 104-105 of the source:
`s.replace("\n", " ").replace("\r", " ")`, then `re.sub(r"\s+", " ", s)`,
then `.strip()`. -/
def cleanString (s : String) : String :=
  String.mk (stripWs (collapseWsAux (replaceChar '\r' ' '
    (replaceChar '\n' ' ' s.data)) false))

/-- A raw spreadsheet cell value as seen by `normalize_cell`.
`float` carries the exact rational value of the Python float and the text
Python's default `str(float)` would produce for it; `other` carries
`str(value)` for any value that is neither `None`, numeric nor a string. -/
inductive CellValue where
  | none : CellValue
  | int (n : Int) : CellValue
  | float (val : Rat) (pyStr : String) : CellValue
  | str (s : String) : CellValue
  | other (pyStr : String) : CellValue
deriving DecidableEq

/-- Python `str(n)` for an int: decimal digits with a leading minus sign for
negative numbers (equal to Lean's `toString`). -/
def intStr : Int → String
  | Int.ofNat m => Nat.repr m
  | Int.negSucc m => "-" ++ Nat.repr (m + 1)

/-- The pre-cleanup rendering of `normalize_cell` (source lines 97-102):
an integral float is first converted with `int(...)` and then rendered as an
int; any other value is rendered with `str(...)`. -/
def renderValue : CellValue → String
  | CellValue.none => ""
  | CellValue.int n => intStr n
  | CellValue.float q pyStr => if q.den = 1 then intStr q.num else pyStr
  | CellValue.str s => s
  | CellValue.other pyStr => pyStr

/-- The set `EMPTY_TOKENS` of the source (line 74): sentinel spellings of "no
value", compared case-insensitively. -/
def EMPTY_TOKENS : List String :=
  ["-", "—", "–", "n/a", "na", "null", "none"]

/-- The function `normalize_cell` (source lines 93-110). -/
def normalize_cell : CellValue → Option String
  | CellValue.none => Option.none
  | v =>
    let s := cleanString (renderValue v)
    if s = "" then Option.none
    else if EMPTY_TOKENS.contains (pyLower s) then Option.none
    else Option.some s

/-- Python `sep.join(parts)`. -/
def sepJoin (sep : String) : List String → String
  | [] => ""
  | [p] => p
  | p :: rest => p ++ sep ++ sepJoin sep rest

/-- The function `join_valid` (source lines 113-123): normalize every value, keep the
non-absent results in order, join with `sep`, collapse whitespace and strip,
and turn an empty result into absence (`return out or None`). -/
def join_valid (values : List CellValue) (sep : String) : Option String :=
  let parts := values.filterMap normalize_cell
  if parts.isEmpty then Option.none
  else
    let out := String.mk (stripWs (collapseWsAux (sepJoin sep parts).data false))
    if out = "" then Option.none else Option.some out

/-- The read-only worksheet abstraction: `ws[f"{col}{row}"].value` becomes
`cell col row`, and `ws.max_row` is `max_row`. -/
structure Worksheet where
  cell : String → Nat → CellValue
  max_row : Nat

/-- The function `get_group` (source lines 126-128); every call site of the program uses
the default separator `" "`. -/
def get_group (ws : Worksheet) (row : Nat) (cols : List String) (sep : String) :
    Option String :=
  join_valid (cols.map (fun c => ws.cell c row)) sep

/-- The constant `START_ROW` (source line 45). -/
def START_ROW : Nat := 11

def COLS_EQUIP_TAG : List String := ["B"]

def COLS_EQUIP_DESC : List String := ["C", "D"]

def COLS_FONTE_TAG : List String := ["E", "F", "G"]

def COLS_FONTE_DESC : List String := ["H", "I", "J", "K", "L"]

def COLS_COMO_BLOQUEAR : List String := ["M", "N"]

def COLS_ONDE_BLOQUEAR : List String := ["O", "P", "Q", "R", "S"]

def COLS_TIPO_BLOQUEIO : List String := ["T", "U"]

def COLS_COMO_DESBLOQUEAR : List String := ["Z", "AA"]

/-- The list `ALL_RELEVANT_COLS` (source lines 61-72): Python's
`sorted(set(...))` of the eight column lists, written out (string order
puts "AA" before "B"). -/
def ALL_RELEVANT_COLS : List String :=
  ["AA", "B", "C", "D", "E", "F", "G", "H", "I", "J", "K",
   "L", "M", "N", "O", "P", "Q", "R", "S", "T", "U", "Z"]

/-- The predicate `row_has_any_data` (source lines 131-136). -/
def row_has_any_data (ws : Worksheet) (row : Nat) : Bool :=
  ALL_RELEVANT_COLS.any (fun c => (normalize_cell (ws.cell c row)).isSome)

/-- The list `FOOTER_KEYWORDS` (source lines 76-87). -/
def FOOTER_KEYWORDS : List String :=
  ["LEGENDA", "ELABORADOR", "REVISOR", "APROVADOR", "PROVIDENCIAS",
   "PROVIDÊNCIAS", "DISPOSITIVO", "LAYOUT", "PÁGINA", "PAGINA"]

/-- The marker columns checked by `row_has_footer_marker` (source line 140). -/
def FOOTER_CHECK_COLS : List String :=
  ["A", "B", "C", "D", "E", "H", "M", "O", "T", "Z", "AA"]

/-- Python's `k in joined` substring test, as contiguous-sublist containment
of the character lists. -/
def strContains (joined k : String) : Bool :=
  decide (k.data <:+: joined.data)

/-- The predicate `row_has_footer_marker` (source lines 139-149): normalize and uppercase
the marker cells, join them with " | ", and look for any footer keyword as a
substring. -/
def row_has_footer_marker (ws : Worksheet) (row : Nat) : Bool :=
  let texts := FOOTER_CHECK_COLS.filterMap
    (fun c => (normalize_cell (ws.cell c row)).map pyUpper)
  if texts.isEmpty then false
  else
    let joined := sepJoin " | " texts
    FOOTER_KEYWORDS.any (fun k => strContains joined k)

/-- One output record (the dict built at source lines 288-298); the map keys
become fields, `onde_bloquear_tag` standing for "Onde Bloquear / TAG". -/
structure Record where
  arquivo_de_origem : String
  tag_do_equipamento : Option String
  descricao_do_equipamento : Option String
  tag_da_fonte_de_energia : Option String
  descricao_da_fonte_de_energia : Option String
  como_bloquear : Option String
  onde_bloquear_tag : Option String
  tipo_de_bloqueio : Option String
  como_desbloquear : Option String
deriving DecidableEq

/-- The fill-down step inlined at source lines 271-279: given the stored
last-seen value and the current value, return the effective value and the
new stored value. -/
def fillDownUpdate (last v : Option String) : Option String × Option String :=
  match v with
  | Option.none => (last, last)
  | Option.some x => (Option.some x, Option.some x)

/-- Feeding a whole sequence of current values through one fill-down
tracker: the list of effective values. -/
def fillDownRun : Option String → List (Option String) → List (Option String)
  | _, [] => []
  | st, v :: vs =>
    let p := fillDownUpdate st v
    p.1 :: fillDownRun p.2 vs

/-- The candidate record built for one row (source lines 268-298), given the
stored fill-down state for the two equipment fields. -/
def buildRecord (ws : Worksheet) (src : String) (r : Nat)
    (lastTag lastDesc : Option String) : Record :=
  { arquivo_de_origem := src
    tag_do_equipamento := (fillDownUpdate lastTag (get_group ws r COLS_EQUIP_TAG " ")).1
    descricao_do_equipamento := (fillDownUpdate lastDesc (get_group ws r COLS_EQUIP_DESC " ")).1
    tag_da_fonte_de_energia := get_group ws r COLS_FONTE_TAG " "
    descricao_da_fonte_de_energia := get_group ws r COLS_FONTE_DESC " "
    como_bloquear := get_group ws r COLS_COMO_BLOQUEAR " "
    onde_bloquear_tag := get_group ws r COLS_ONDE_BLOQUEAR " "
    tipo_de_bloqueio := get_group ws r COLS_TIPO_BLOQUEIO " "
    como_desbloquear := get_group ws r COLS_COMO_DESBLOQUEAR " " }

/-- The predicate `has_source_info` (source lines 300-310): at least one of the six
energy-source fields is non-absent. -/
def has_source_info (rec : Record) : Bool :=
  rec.tag_da_fonte_de_energia.isSome || rec.descricao_da_fonte_de_energia.isSome ||
  rec.como_bloquear.isSome || rec.onde_bloquear_tag.isSome ||
  rec.tipo_de_bloqueio.isSome || rec.como_desbloquear.isSome

/-- The row loop of `process_workbook` (source lines 261-316): break on a
footer marker, skip blank rows, update the fill-down state, and keep the
candidate record only when it has source info. -/
def process_rows (ws : Worksheet) (src : String) :
    List Nat → Option String → Option String → List Record
  | [], _, _ => []
  | r :: rest, lastTag, lastDesc =>
    if row_has_footer_marker ws r then []
    else if row_has_any_data ws r = false then process_rows ws src rest lastTag lastDesc
    else
      let record := buildRecord ws src r lastTag lastDesc
      let newTag := (fillDownUpdate lastTag (get_group ws r COLS_EQUIP_TAG " ")).2
      let newDesc := (fillDownUpdate lastDesc (get_group ws r COLS_EQUIP_DESC " ")).2
      if has_source_info record then record :: process_rows ws src rest newTag newDesc
      else process_rows ws src rest newTag newDesc

/-- The row loop again, with each kept record annotated by the row number it
was built from (a ghost annotation used to state ordering and provenance;
`process_rows` is its projection). -/
def process_rowsA (ws : Worksheet) (src : String) :
    List Nat → Option String → Option String → List (Nat × Record)
  | [], _, _ => []
  | r :: rest, lastTag, lastDesc =>
    if row_has_footer_marker ws r then []
    else if row_has_any_data ws r = false then process_rowsA ws src rest lastTag lastDesc
    else
      let record := buildRecord ws src r lastTag lastDesc
      let newTag := (fillDownUpdate lastTag (get_group ws r COLS_EQUIP_TAG " ")).2
      let newDesc := (fillDownUpdate lastDesc (get_group ws r COLS_EQUIP_DESC " ")).2
      if has_source_info record then (r, record) :: process_rowsA ws src rest newTag newDesc
      else process_rowsA ws src rest newTag newDesc

/-- The expression `max_row or START_ROW` (source line 259): Python `or` replaces a falsy
(`0` / `None`) `max_row` by `START_ROW`. -/
def maxRowEff (ws : Worksheet) : Nat :=
  if ws.max_row = 0 then START_ROW else ws.max_row

/-- The row numbers visited by `process_workbook`:
`range(START_ROW, max_row + 1)`. -/
def sheetRows (ws : Worksheet) : List Nat :=
  List.range' START_ROW (maxRowEff ws + 1 - START_ROW)

/-- The function `process_workbook` (source lines 251-316): run the row loop over the
sheet's row range with both fill-down trackers initially absent. -/
def process_workbook (ws : Worksheet) (src : String) : List Record :=
  process_rows ws src (sheetRows ws) Option.none Option.none

/-- The function `process_workbook` with row provenance annotations. -/
def process_workbookA (ws : Worksheet) (src : String) : List (Nat × Record) :=
  process_rowsA ws src (sheetRows ws) Option.none Option.none

/-- The stored equipment-tag fill-down state after the row loop has visited
the given rows (only rows that pass `row_has_any_data` update it). -/
def tagAfter (ws : Worksheet) (rows : List Nat) (t : Option String) : Option String :=
  rows.foldl (fun acc r =>
    if row_has_any_data ws r then (fillDownUpdate acc (get_group ws r COLS_EQUIP_TAG " ")).2
    else acc) t

/-- The stored equipment-description fill-down state after visiting the
given rows. -/
def descAfter (ws : Worksheet) (rows : List Nat) (d : Option String) : Option String :=
  rows.foldl (fun acc r =>
    if row_has_any_data ws r then (fillDownUpdate acc (get_group ws r COLS_EQUIP_DESC " ")).2
    else acc) d

/-- One input file of the batch driver, identified by name; `outcome` is the
result of converting/loading/processing it (source lines 344-350), an
exception modelled as `Except.error` with the exception's text. -/
structure InputFile where
  name : String
  outcome : Except String (List Record)

/-- The batch loop of `main` (source lines 341-357): on success append the
file's records and bump `processed`; on failure append `(name, error)` to
`failed` and continue with the remaining files. -/
def runBatchAux : List InputFile → List Record → Nat → List (String × String) →
    List Record × Nat × List (String × String)
  | [], recs, processed, failed => (recs, processed, failed)
  | f :: fs, recs, processed, failed =>
    match f.outcome with
    | Except.ok rs => runBatchAux fs (recs ++ rs) (processed + 1) failed
    | Except.error e => runBatchAux fs recs processed (failed ++ [(f.name, e)])

/-- Running the batch driver from the initial state. -/
def runBatch (files : List InputFile) : List Record × Nat × List (String × String) :=
  runBatchAux files [] 0 []

/-- The records a file contributes to the consolidated output. -/
def fileRecords (f : InputFile) : List Record :=
  match f.outcome with
  | Except.ok rs => rs
  | Except.error _ => []

/-- Whether a file processes successfully. -/
def fileOk (f : InputFile) : Bool :=
  match f.outcome with
  | Except.ok _ => true
  | Except.error _ => false

/-- The failure pair a file contributes to the error log, if any. -/
def fileErr (f : InputFile) : Option (String × String) :=
  match f.outcome with
  | Except.ok _ => Option.none
  | Except.error e => Option.some (f.name, e)

/-- No two adjacent whitespace characters. -/
def noDoubleWs : List Char → Bool
  | [] => true
  | [_] => true
  | a :: b :: rest => !(isPyWs a && isPyWs b) && noDoubleWs (b :: rest)

/-- The shape every non-absent string produced by the normalizer and the
grouper has: non-empty, free of newlines and carriage returns, no leading or
trailing whitespace, no run of two or more whitespace characters, and not a
case-insensitive sentinel token. -/
def goodOutput (s : String) : Bool :=
  !s.data.isEmpty &&
  s.data.all (fun c => !(c = '\n' || c = '\r')) &&
  s.data.head?.all (fun c => !isPyWs c) &&
  s.data.getLast?.all (fun c => !isPyWs c) &&
  noDoubleWs s.data &&
  !EMPTY_TOKENS.contains (pyLower s)

/-- An optional string that, when present, has the `goodOutput` shape. -/
def GoodOpt (o : Option String) : Prop :=
  ∀ s, o = Option.some s → goodOutput s = true

/-- All eight extracted fields of a record have the `goodOutput` shape
whenever they are non-absent. -/
def GoodRecord (rec : Record) : Prop :=
  GoodOpt rec.tag_do_equipamento ∧ GoodOpt rec.descricao_do_equipamento ∧
  GoodOpt rec.tag_da_fonte_de_energia ∧ GoodOpt rec.descricao_da_fonte_de_energia ∧
  GoodOpt rec.como_bloquear ∧ GoodOpt rec.onde_bloquear_tag ∧
  GoodOpt rec.tipo_de_bloqueio ∧ GoodOpt rec.como_desbloquear

/-- Re-inject a normalization result as a cell value (absence stays absence,
a string comes back as a text cell); used to state idempotence. -/
def cellOfOpt : Option String → CellValue
  | Option.none => CellValue.none
  | Option.some s => CellValue.str s

/-- The internal shape of the collapse-and-strip pipeline's output: every
whitespace character is a plain space, no two adjacent characters are both
whitespace, and the first and last characters are not whitespace. -/
def CleanChars (l : List Char) : Prop :=
  (∀ c ∈ l, isPyWs c = true → c = ' ') ∧
  List.Chain' (fun a b => ¬(isPyWs a = true ∧ isPyWs b = true)) l ∧
  (∀ c, l.head? = Option.some c → isPyWs c = false) ∧
  (∀ c, l.getLast? = Option.some c → isPyWs c = false)

/-- Example sheet: data in row 11, a "LEGENDA" footer marker in row 12, and
more (valid-looking) data in row 13 that must not be extracted. -/
def wsFoot : Worksheet where
  cell := fun c r =>
    if r = 11 ∧ c = "E" then CellValue.str "Rede elétrica"
    else if r = 11 ∧ c = "M" then CellValue.str "Fechar válvula"
    else if r = 12 ∧ c = "A" then CellValue.str "LEGENDA"
    else if r = 13 ∧ c = "E" then CellValue.str "Hidráulica"
    else if r = 13 ∧ c = "M" then CellValue.str "Abrir dreno"
    else CellValue.none
  max_row := 13

/-- Example sheet: row 11 carries only an equipment tag and no
energy-source data at all. -/
def wsEq : Worksheet where
  cell := fun c r =>
    if r = 11 ∧ c = "B" then CellValue.str "EQ-1"
    else CellValue.none
  max_row := 11

/-- Example sheet for fill-down: row 11 sets the equipment tag "EQ-1" with a
how-to-lock value, row 12 leaves the tag blank (merged cell) but has a
how-to-unlock value. -/
def wsFill : Worksheet where
  cell := fun c r =>
    if r = 11 ∧ c = "B" then CellValue.str "EQ-1"
    else if r = 11 ∧ c = "M" then CellValue.str "Valve A"
    else if r = 12 ∧ c = "Z" then CellValue.str "Open valve"
    else CellValue.none
  max_row := 12

/-- Example sheet for grouping: H11 is "Rede" and I11 is the sentinel "-". -/
def wsRede : Worksheet where
  cell := fun c r =>
    if r = 11 ∧ c = "H" then CellValue.str "Rede"
    else if r = 11 ∧ c = "I" then CellValue.str "-"
    else CellValue.none
  max_row := 11

/-- A sample output record (only the file name and one source field set). -/
def sampleRec : Record where
  arquivo_de_origem := "a.xlsx"
  tag_do_equipamento := Option.some "EQ-1"
  descricao_do_equipamento := Option.none
  tag_da_fonte_de_energia := Option.none
  descricao_da_fonte_de_energia := Option.none
  como_bloquear := Option.some "Valve A"
  onde_bloquear_tag := Option.none
  tipo_de_bloqueio := Option.none
  como_desbloquear := Option.none

/-- The second record extracted from `wsFill`: the equipment tag is
inherited by fill-down from row 11. -/
def recFill12 : Record where
  arquivo_de_origem := "a.xlsx"
  tag_do_equipamento := Option.some "EQ-1"
  descricao_do_equipamento := Option.none
  tag_da_fonte_de_energia := Option.none
  descricao_da_fonte_de_energia := Option.none
  como_bloquear := Option.none
  onde_bloquear_tag := Option.none
  tipo_de_bloqueio := Option.none
  como_desbloquear := Option.some "Open valve"

/-- Batch example: first file succeeds with one record. -/
def fileA : InputFile where
  name := "a.xlsx"
  outcome := Except.ok [sampleRec]

/-- Batch example: second file fails to load. -/
def fileB : InputFile where
  name := "b.xls"
  outcome := Except.error "Timeout convertendo .xls"

/-- Batch example: third file succeeds with no records. -/
def fileC : InputFile where
  name := "c.xlsm"
  outcome := Except.ok []

theorem ws_char_cases {c : Char} (h : isPyWs c = true) :
    c = ' ' ∨ c = '\t' ∨ c = '\n' ∨ c = '\r' ∨ c = '\x0B' ∨ c = '\x0C' := by
  simp only [isPyWs, Bool.or_eq_true, decide_eq_true_eq] at h
  tauto

theorem pyCharLower_ws {c : Char} (h : isPyWs c = true) : pyCharLower c = c := by
  rcases ws_char_cases h with rfl | rfl | rfl | rfl | rfl | rfl <;> decide

theorem collapse_mem (l : List Char) : ∀ (b : Bool) (c : Char),
    c ∈ collapseWsAux l b → isPyWs c = true → c = ' ' := by
  induction l with
  | nil => intro b c h _; simp [collapseWsAux] at h
  | cons a rest ih =>
    intro b c h hws
    by_cases ha : isPyWs a = true
    · cases b with
      | true =>
        simp only [collapseWsAux, ha, if_true] at h
        exact ih true c h hws
      | false =>
        simp only [collapseWsAux, ha, if_true, if_neg (by decide : ¬(false = true))] at h
        rcases List.mem_cons.mp h with rfl | h
        · rfl
        · exact ih true c h hws
    · simp only [collapseWsAux, if_neg ha] at h
      rcases List.mem_cons.mp h with rfl | h
      · exact absurd hws ha
      · exact ih false c h hws

theorem collapse_head_true (l : List Char) : ∀ c : Char,
    (collapseWsAux l true).head? = Option.some c → isPyWs c = false := by
  induction l with
  | nil => intro c h; simp [collapseWsAux] at h
  | cons a rest ih =>
    intro c h
    by_cases ha : isPyWs a = true
    · simp only [collapseWsAux, ha, if_true] at h
      exact ih c h
    · simp only [collapseWsAux, if_neg ha, List.head?_cons, Option.some.injEq] at h
      subst h
      exact Bool.eq_false_iff.mpr ha

theorem collapse_chain (l : List Char) : ∀ b : Bool,
    List.Chain' (fun a b => ¬(isPyWs a = true ∧ isPyWs b = true)) (collapseWsAux l b) := by
  induction l with
  | nil => intro b; simp [collapseWsAux]
  | cons a rest ih =>
    intro b
    by_cases ha : isPyWs a = true
    · cases b with
      | true =>
        simpa only [collapseWsAux, ha, if_true] using ih true
      | false =>
        simp only [collapseWsAux, ha, if_true, if_neg (by decide : ¬(false = true))]
        refine List.chain'_cons'.mpr ⟨?_, ih true⟩
        intro y hy hcon
        have hns := collapse_head_true rest y hy
        rw [hns] at hcon
        exact Bool.noConfusion hcon.2
    · simp only [collapseWsAux, if_neg ha]
      refine List.chain'_cons'.mpr ⟨?_, ih false⟩
      intro y hy hcon
      exact ha hcon.1

theorem dropWhile_head_not {p : Char → Bool} {l : List Char} {c : Char}
    (h : (l.dropWhile p).head? = Option.some c) : p c = false := by
  have hh := List.head?_dropWhile_not p l
  rw [h] at hh
  exact hh

theorem strip_last {l : List Char} {c : Char}
    (h : (stripWs l).getLast? = Option.some c) : isPyWs c = false := by
  unfold stripWs at h
  rw [List.getLast?_reverse] at h
  exact dropWhile_head_not h

theorem strip_head {l : List Char} {c : Char}
    (h : (stripWs l).head? = Option.some c) : isPyWs c = false := by
  unfold stripWs at h
  rw [List.head?_reverse] at h
  have hne : (l.dropWhile isPyWs).reverse.dropWhile isPyWs ≠ [] := by
    intro hnil
    rw [hnil] at h
    simp at h
  have hsuf : (l.dropWhile isPyWs).reverse.dropWhile isPyWs <:+ (l.dropWhile isPyWs).reverse :=
    List.dropWhile_suffix isPyWs
  obtain ⟨zs, hzs⟩ := hsuf
  have e : (l.dropWhile isPyWs).reverse.getLast? =
      ((l.dropWhile isPyWs).reverse.dropWhile isPyWs).getLast? := by
    conv_lhs => rw [← hzs]
    exact List.getLast?_append_of_ne_nil zs hne
  have h2 := e.trans h
  rw [List.getLast?_reverse] at h2
  exact dropWhile_head_not h2

theorem strip_contained (l : List Char) : stripWs l <:+: l := by
  have h1 : l.dropWhile isPyWs <:+ l := List.dropWhile_suffix _
  have h2 : (l.dropWhile isPyWs).reverse.dropWhile isPyWs <:+ (l.dropWhile isPyWs).reverse :=
    List.dropWhile_suffix _
  have h3 : stripWs l <+: l.dropWhile isPyWs := by
    unfold stripWs
    rw [← List.reverse_suffix]
    simpa using h2
  have hpi := List.IsPrefix.isInfix h3
  have hsi := List.IsSuffix.isInfix h1
  exact List.IsInfix.trans hpi hsi

theorem cleanChars_pipeline (l : List Char) : CleanChars (stripWs (collapseWsAux l false)) := by
  refine ⟨?_, ?_, ?_, ?_⟩
  · intro c hc hws
    have hmem : c ∈ collapseWsAux l false :=
      (strip_contained (collapseWsAux l false)).sublist.subset hc
    exact collapse_mem l false c hmem hws
  · exact List.Chain'.infix (collapse_chain l false) (strip_contained _)
  · intro c hc
    exact strip_head hc
  · intro c hc
    exact strip_last hc

theorem chain'_tail_head {R : Char → Char → Prop} {a : Char} {rest : List Char}
    (h : List.Chain' R (a :: rest)) : ∀ y, rest.head? = Option.some y → R a y := by
  intro y hy
  exact (List.chain'_cons'.mp h).1 y hy

theorem collapse_id : ∀ (l : List Char) (b : Bool),
    (∀ c ∈ l, isPyWs c = true → c = ' ') →
    List.Chain' (fun x y => ¬(isPyWs x = true ∧ isPyWs y = true)) l →
    (b = true → ∀ c, l.head? = Option.some c → isPyWs c = false) →
    collapseWsAux l b = l := by
  intro l
  induction l with
  | nil => intro b _ _ _; simp [collapseWsAux]
  | cons a rest ih =>
    intro b h1 h2 h3
    by_cases ha : isPyWs a = true
    · have haSp : a = ' ' := h1 a (List.mem_cons_self a rest) ha
      subst haSp
      cases b with
      | true =>
        exfalso
        have hf := h3 rfl ' ' (by simp)
        rw [hf] at ha
        exact Bool.noConfusion ha
      | false =>
        simp only [collapseWsAux, ha, if_true, if_neg (by decide : ¬(false = true))]
        have hrest : collapseWsAux rest true = rest := by
          refine ih true ?_ ?_ ?_
          · intro c hc hcws
            exact h1 c (List.mem_cons_of_mem _ hc) hcws
          · exact h2.tail
          · intro _ c hc
            by_cases hcw : isPyWs c = true
            · exact absurd ⟨ha, hcw⟩ (chain'_tail_head h2 c hc)
            · exact Bool.eq_false_iff.mpr hcw
        rw [hrest]
    · simp only [collapseWsAux, if_neg ha]
      have hrest : collapseWsAux rest false = rest := by
        refine ih false ?_ ?_ ?_
        · intro c hc hcws
          exact h1 c (List.mem_cons_of_mem _ hc) hcws
        · exact h2.tail
        · intro hff
          exact absurd hff (by decide)
      rw [hrest]

theorem strip_id (l : List Char)
    (h1 : ∀ c, l.head? = Option.some c → isPyWs c = false)
    (h2 : ∀ c, l.getLast? = Option.some c → isPyWs c = false) :
    stripWs l = l := by
  have d1 : l.dropWhile isPyWs = l := by
    cases l with
    | nil => rfl
    | cons a rest =>
      have hna := h1 a rfl
      simp [List.dropWhile_cons, hna]
  unfold stripWs
  rw [d1]
  have d2 : l.reverse.dropWhile isPyWs = l.reverse := by
    cases hr : l.reverse with
    | nil => rfl
    | cons a rest =>
      have hga : l.getLast? = Option.some a := by
        rw [← List.head?_reverse, hr]
        rfl
      have hna := h2 a hga
      simp [List.dropWhile_cons, hna]
  rw [d2, List.reverse_reverse]

theorem clean_id {l : List Char} (h : CleanChars l) :
    stripWs (collapseWsAux l false) = l := by
  obtain ⟨p1, p2, p3, p4⟩ := h
  rw [collapse_id l false p1 p2 (fun hff => absurd hff (by decide))]
  exact strip_id l p3 p4

theorem replaceChar_id {a b : Char} : ∀ (l : List Char),
    (∀ c ∈ l, ¬(c = a)) → replaceChar a b l = l := by
  intro l
  induction l with
  | nil => intro _; rfl
  | cons x rest ih =>
    intro h
    have hx : ¬(x = a) := h x (List.mem_cons_self x rest)
    have hrest := ih (fun c hc => h c (List.mem_cons_of_mem x hc))
    simp only [replaceChar, List.map_cons] at hrest ⊢
    rw [if_neg hx, hrest]

theorem cleanString_id {s : String} (h : CleanChars s.data) : cleanString s = s := by
  have p1 := h.1
  have hn : ∀ c ∈ s.data, ¬(c = '\n') := by
    intro c hc hceq
    subst hceq
    have := p1 '\n' hc (by decide)
    exact absurd this (by decide)
  have hr : ∀ c ∈ s.data, ¬(c = '\r') := by
    intro c hc hceq
    subst hceq
    have := p1 '\r' hc (by decide)
    exact absurd this (by decide)
  unfold cleanString
  rw [replaceChar_id s.data hn, replaceChar_id s.data hr, clean_id h]

theorem cleanString_cleanChars (s : String) : CleanChars (cleanString s).data :=
  cleanChars_pipeline _

theorem string_mk_data (s : String) : String.mk s.data = s := rfl

theorem normalize_eq_nonnone (v : CellValue) (hv : ¬(v = CellValue.none)) :
    normalize_cell v =
      (if cleanString (renderValue v) = "" then Option.none
       else if EMPTY_TOKENS.contains (pyLower (cleanString (renderValue v))) then Option.none
       else Option.some (cleanString (renderValue v))) := by
  cases v with
  | none => exact absurd rfl hv
  | int n => rfl
  | float q r => rfl
  | str s => rfl
  | other r => rfl

theorem normalize_some {v : CellValue} {s : String} (h : normalize_cell v = Option.some s) :
    s = cleanString (renderValue v) ∧ CleanChars s.data ∧ ¬(s = "") ∧
    EMPTY_TOKENS.contains (pyLower s) = false := by
  have hv : ¬(v = CellValue.none) := by
    intro hv
    subst hv
    exact Option.noConfusion h
  rw [normalize_eq_nonnone v hv] at h
  by_cases h1 : cleanString (renderValue v) = ""
  · rw [if_pos h1] at h
    exact Option.noConfusion h
  · rw [if_neg h1] at h
    by_cases h2 : EMPTY_TOKENS.contains (pyLower (cleanString (renderValue v))) = true
    · rw [if_pos h2] at h
      exact Option.noConfusion h
    · rw [if_neg h2] at h
      injection h with h
      subst h
      exact ⟨rfl, cleanString_cleanChars _, h1, Bool.eq_false_iff.mpr h2⟩

theorem normalize_clean (s : String) (h1 : CleanChars s.data) (h2 : ¬(s = ""))
    (h3 : EMPTY_TOKENS.contains (pyLower s) = false) :
    normalize_cell (CellValue.str s) = Option.some s := by
  rw [normalize_eq_nonnone _ (fun hh => CellValue.noConfusion hh)]
  simp only [renderValue]
  rw [cleanString_id h1]
  have hcc : ¬(EMPTY_TOKENS.contains (pyLower s) = true) := by
    intro hc
    rw [h3] at hc
    exact Bool.noConfusion hc
  rw [if_neg h2, if_neg hcc]

theorem str_empty_iff (s : String) : s = "" ↔ s.data = [] := by
  cases s with
  | mk l => simp [String.ext_iff]

theorem chain'_of_noWs : ∀ (l : List Char), (∀ c ∈ l, isPyWs c = false) →
    List.Chain' (fun x y => ¬(isPyWs x = true ∧ isPyWs y = true)) l := by
  intro l
  induction l with
  | nil => intro _; simp
  | cons a rest ih =>
    intro h
    refine List.chain'_cons'.mpr ⟨?_, ih (fun c hc => h c (List.mem_cons_of_mem _ hc))⟩
    intro y _ hcon
    rw [h a (List.mem_cons_self _ _)] at hcon
    exact Bool.noConfusion hcon.1

theorem noWs_cleanChars {l : List Char} (h : ∀ c ∈ l, isPyWs c = false) : CleanChars l := by
  refine ⟨?_, chain'_of_noWs l h, ?_, ?_⟩
  · intro c hc hcw
    rw [h c hc] at hcw
    exact Bool.noConfusion hcw
  · intro c hc
    exact h c (List.mem_of_mem_head? (Option.mem_def.mpr hc))
  · intro c hc
    have : l.reverse.head? = Option.some c := by rw [List.head?_reverse]; exact hc
    have hm := List.mem_of_mem_head? (Option.mem_def.mpr this)
    exact h c (List.mem_reverse.mp hm)

theorem token_no_ws : ∀ t ∈ EMPTY_TOKENS, ∀ c ∈ t.data, isPyWs c = false := by decide

theorem contains_mem {l : List String} {s : String} (h : l.contains s = true) : s ∈ l := by
  simpa [List.contains] using h

theorem lower_token_no_ws {s : String}
    (h : EMPTY_TOKENS.contains (pyLower s) = true) : ∀ c ∈ s.data, isPyWs c = false := by
  intro c hc
  by_cases hcw : isPyWs c = true
  · exfalso
    have hmem : pyLower s ∈ EMPTY_TOKENS := contains_mem h
    have hcl : c ∈ (pyLower s).data := by
      have : pyCharLower c ∈ s.data.map pyCharLower := List.mem_map_of_mem pyCharLower hc
      rw [pyCharLower_ws hcw] at this
      exact this
    have := token_no_ws (pyLower s) hmem c hcl
    rw [this] at hcw
    exact Bool.noConfusion hcw
  · exact Bool.eq_false_iff.mpr hcw

theorem normalize_token {s : String}
    (h : EMPTY_TOKENS.contains (pyLower s) = true) :
    normalize_cell (CellValue.str s) = Option.none := by
  have hclean : CleanChars s.data := noWs_cleanChars (lower_token_no_ws h)
  rw [normalize_eq_nonnone _ (fun hh => CellValue.noConfusion hh)]
  simp only [renderValue]
  rw [cleanString_id hclean]
  by_cases h1 : s = ""
  · rw [if_pos h1]
  · rw [if_neg h1, if_pos h]

theorem clean_append_space {A B : List Char}
    (hA : CleanChars A) (hAne : ¬(A = [])) (hB : CleanChars B) (hBne : ¬(B = [])) :
    CleanChars (A ++ ' ' :: B) := by
  obtain ⟨a1, a2, a3, a4⟩ := hA
  obtain ⟨b1, b2, b3, b4⟩ := hB
  refine ⟨?_, ?_, ?_, ?_⟩
  · intro c hc hcw
    rcases List.mem_append.mp hc with hc | hc
    · exact a1 c hc hcw
    · rcases List.mem_cons.mp hc with rfl | hc
      · rfl
      · exact b1 c hc hcw
  · refine List.chain'_append.mpr ⟨a2, ?_, ?_⟩
    · refine List.chain'_cons'.mpr ⟨?_, b2⟩
      intro y hy hcon
      rw [b3 y (Option.mem_def.mp hy)] at hcon
      exact Bool.noConfusion hcon.2
    · intro x hx y hy hcon
      rw [a4 x (Option.mem_def.mp hx)] at hcon
      exact Bool.noConfusion hcon.1
  · intro c hc
    cases A with
    | nil => exact absurd rfl hAne
    | cons a A' =>
      rw [List.cons_append, List.head?_cons] at hc
      injection hc with hc
      subst hc
      exact a3 _ rfl
  · intro c hc
    have h1 : (A ++ ' ' :: B).getLast? = (' ' :: B).getLast? :=
      List.getLast?_append_of_ne_nil A (fun hh => List.noConfusion hh)
    have h2 : (' ' :: B).getLast? = B.getLast? := by
      have : (' ' :: B) = [' '] ++ B := rfl
      rw [this]
      exact List.getLast?_append_of_ne_nil [' '] hBne
    rw [h1, h2] at hc
    exact b4 c hc

theorem sepJoin_space_clean : ∀ (parts : List String),
    (∀ p ∈ parts, CleanChars p.data ∧ ¬(p = "")) →
    ¬(parts = []) →
    CleanChars (sepJoin " " parts).data ∧ ¬(sepJoin " " parts = "") := by
  intro parts
  induction parts with
  | nil => intro _ hne; exact absurd rfl hne
  | cons p rest ih =>
    intro h _
    cases rest with
    | nil =>
      simpa [sepJoin] using h p (List.mem_cons_self _ _)
    | cons q rest2 =>
      have hp := h p (List.mem_cons_self _ _)
      have hrest := ih (fun x hx => h x (List.mem_cons_of_mem _ hx))
        (fun hh => List.noConfusion hh)
      have hdata : (sepJoin " " (p :: q :: rest2)).data =
          p.data ++ ' ' :: (sepJoin " " (q :: rest2)).data := by
        show (p ++ " " ++ sepJoin " " (q :: rest2)).data = _
        rw [String.data_append, String.data_append, List.append_assoc]
        rfl
      constructor
      · rw [hdata]
        exact clean_append_space hp.1 (fun hh => hp.2 ((str_empty_iff p).mpr hh))
          hrest.1 (fun hh => hrest.2 ((str_empty_iff _).mpr hh))
      · intro hh
        have := (str_empty_iff _).mp hh
        rw [hdata] at this
        exact absurd this (by simp [str_empty_iff, (str_empty_iff p).not.mp hp.2])

theorem join_parts_clean (values : List CellValue) :
    ∀ p ∈ values.filterMap normalize_cell, CleanChars p.data ∧ ¬(p = "") := by
  intro p hp
  obtain ⟨v, _, hnv⟩ := List.mem_filterMap.mp hp
  obtain ⟨_, hclean, hne, _⟩ := normalize_some hnv
  exact ⟨hclean, hne⟩

theorem join_valid_space (values : List CellValue) :
    join_valid values " " =
      (if (values.filterMap normalize_cell).isEmpty then Option.none
       else Option.some (sepJoin " " (values.filterMap normalize_cell))) := by
  by_cases he : (values.filterMap normalize_cell).isEmpty = true
  · simp only [join_valid, he, if_true]
  · have hne : ¬(values.filterMap normalize_cell = []) := by
      intro hh
      exact he (by simp [hh])
    have hcl := sepJoin_space_clean (values.filterMap normalize_cell)
      (join_parts_clean values) hne
    simp only [join_valid, if_neg he]
    rw [clean_id hcl.1, string_mk_data]
    rw [if_neg hcl.2]

theorem noDoubleWs_of_chain : ∀ l : List Char,
    List.Chain' (fun x y => ¬(isPyWs x = true ∧ isPyWs y = true)) l →
    noDoubleWs l = true := by
  intro l
  induction l with
  | nil => intro _; rfl
  | cons a rest ih =>
    intro h
    cases rest with
    | nil => rfl
    | cons b rest2 =>
      have hr := List.chain'_cons'.mp h
      have hR : ¬(isPyWs a = true ∧ isPyWs b = true) := hr.1 b rfl
      have htail := ih hr.2
      simp only [noDoubleWs, Bool.and_eq_true, htail]
      cases hx : isPyWs a <;> cases hy : isPyWs b <;> simp_all

theorem goodOutput_of_clean {s : String} (h : CleanChars s.data) (hne : ¬(s = ""))
    (htok : EMPTY_TOKENS.contains (pyLower s) = false) : goodOutput s = true := by
  obtain ⟨p1, p2, p3, p4⟩ := h
  simp only [goodOutput, Bool.and_eq_true]
  refine ⟨⟨⟨⟨⟨?_, ?_⟩, ?_⟩, ?_⟩, ?_⟩, ?_⟩
  · simp only [Bool.not_eq_true']
    rw [Bool.eq_false_iff]
    intro hh
    exact hne ((str_empty_iff s).mpr (List.isEmpty_iff.mp hh))
  · rw [List.all_eq_true]
    intro c hc
    by_cases h1 : c = '\n'
    · subst h1
      have := p1 '\n' hc (by decide)
      exact absurd this (by decide)
    · by_cases h2 : c = '\r'
      · subst h2
        have := p1 '\r' hc (by decide)
        exact absurd this (by decide)
      · simp [h1, h2]
  · cases hh : s.data.head? with
    | none => rfl
    | some c => simpa using p3 c hh
  · cases hh : s.data.getLast? with
    | none => rfl
    | some c => simpa using p4 c hh
  · exact noDoubleWs_of_chain s.data p2
  · simp only [Bool.not_eq_true']
    exact htok

/-- The claim C5: sentinel tokens in any letter case, the absent input, and
inputs whose cleaned text is empty all normalize to absence. -/
theorem claim_C5 :
    normalize_cell CellValue.none = Option.none ∧
    (∀ s : String, EMPTY_TOKENS.contains (pyLower s) = true →
      normalize_cell (CellValue.str s) = Option.none) ∧
    (∀ v : CellValue, cleanString (renderValue v) = "" →
      normalize_cell v = Option.none) := by
  refine ⟨rfl, fun s h => normalize_token h, ?_⟩
  intro v h
  by_cases hv : v = CellValue.none
  · subst hv
    rfl
  · rw [normalize_eq_nonnone v hv, if_pos h]

theorem claim_C5_witness :
    EMPTY_TOKENS.contains (pyLower "N/A") = true ∧
    normalize_cell (CellValue.str "N/A") = Option.none ∧
    cleanString (renderValue (CellValue.str " \n ")) = "" ∧
    normalize_cell (CellValue.str " \n ") = Option.none :=
  ⟨by decide, claim_C5.2.1 "N/A" (by decide), by decide,
   claim_C5.2.2 (CellValue.str " \n ") (by decide)⟩

/-- The claim C6: normalization is idempotent. -/
theorem claim_C6 (x : CellValue) :
    normalize_cell (cellOfOpt (normalize_cell x)) = normalize_cell x := by
  cases hx : normalize_cell x with
  | none => rfl
  | some s =>
    obtain ⟨_, hclean, hne, htok⟩ := normalize_some hx
    exact normalize_clean s hclean hne htok

/-- The claim C7: grouping of an empty column list is absent; grouping joins
the surviving normalized values in order with the separator (absent when
none survives); and the H="Rede", I="-" scenario yields "Rede". -/
theorem claim_C7 :
    (∀ (ws : Worksheet) (row : Nat) (cols : List String) (sep : String),
      get_group ws row cols sep = join_valid (cols.map (fun c => ws.cell c row)) sep) ∧
    (∀ (ws : Worksheet) (row : Nat) (sep : String), get_group ws row [] sep = Option.none) ∧
    (∀ values : List CellValue, join_valid values " " =
      (if (values.filterMap normalize_cell).isEmpty then Option.none
       else Option.some (sepJoin " " (values.filterMap normalize_cell)))) ∧
    get_group wsRede 11 ["H", "I"] " " = Option.some "Rede" := by
  refine ⟨fun ws row cols sep => rfl, fun ws row sep => rfl, join_valid_space, by decide⟩

theorem sepJoin_cons_data (p q : String) (rest : List String) :
    (sepJoin " " (p :: q :: rest)).data =
      p.data ++ ' ' :: (sepJoin " " (q :: rest)).data := by
  show (p ++ " " ++ sepJoin " " (q :: rest)).data = _
  rw [String.data_append, String.data_append, List.append_assoc]
  rfl

theorem contains_space_not_token {s : String} (hsp : ' ' ∈ s.data) :
    EMPTY_TOKENS.contains (pyLower s) = false := by
  by_cases h : EMPTY_TOKENS.contains (pyLower s) = true
  · exfalso
    have := lower_token_no_ws h ' ' hsp
    exact absurd this (by decide)
  · exact Bool.eq_false_iff.mpr h

theorem join_good {values : List CellValue} {s : String}
    (h : join_valid values " " = Option.some s) : goodOutput s = true := by
  rw [join_valid_space values] at h
  by_cases he : (values.filterMap normalize_cell).isEmpty = true
  · rw [if_pos he] at h
    exact Option.noConfusion h
  · rw [if_neg he] at h
    injection h with h
    subst h
    have hne : ¬(values.filterMap normalize_cell = []) := by
      intro hh
      exact he (by simp [hh])
    have hcl := sepJoin_space_clean (values.filterMap normalize_cell)
      (join_parts_clean values) hne
    cases hp : values.filterMap normalize_cell with
    | nil => exact absurd hp hne
    | cons p rest =>
      cases rest with
      | nil =>
        have hpmem : p ∈ values.filterMap normalize_cell := by
          rw [hp]
          exact List.mem_cons_self _ _
        obtain ⟨v, _, hnv⟩ := List.mem_filterMap.mp hpmem
        obtain ⟨_, hclean, hne2, htok⟩ := normalize_some hnv
        exact goodOutput_of_clean hclean hne2 htok
      | cons q rest2 =>
        rw [hp] at hcl
        have hsp : ' ' ∈ (sepJoin " " (p :: q :: rest2)).data := by
          rw [sepJoin_cons_data]
          exact List.mem_append_right _ (List.mem_cons_self _ _)
        exact goodOutput_of_clean hcl.1 hcl.2 (contains_space_not_token hsp)

theorem get_group_goodOpt (ws : Worksheet) (r : Nat) (cols : List String) :
    GoodOpt (get_group ws r cols " ") := by
  intro s hs
  exact join_good hs

theorem fillDown_goodOpt {t g : Option String} (ht : GoodOpt t) (hg : GoodOpt g) :
    GoodOpt (fillDownUpdate t g).1 ∧ GoodOpt (fillDownUpdate t g).2 := by
  cases g with
  | none => exact ⟨ht, ht⟩
  | some x => exact ⟨hg, hg⟩

theorem buildRecord_good (ws : Worksheet) (src : String) (r : Nat)
    {t d : Option String} (ht : GoodOpt t) (hd : GoodOpt d) :
    GoodRecord (buildRecord ws src r t d) :=
  ⟨(fillDown_goodOpt ht (get_group_goodOpt ws r COLS_EQUIP_TAG)).1,
   (fillDown_goodOpt hd (get_group_goodOpt ws r COLS_EQUIP_DESC)).1,
   get_group_goodOpt ws r COLS_FONTE_TAG,
   get_group_goodOpt ws r COLS_FONTE_DESC,
   get_group_goodOpt ws r COLS_COMO_BLOQUEAR,
   get_group_goodOpt ws r COLS_ONDE_BLOQUEAR,
   get_group_goodOpt ws r COLS_TIPO_BLOQUEIO,
   get_group_goodOpt ws r COLS_COMO_DESBLOQUEAR⟩

theorem process_rows_good (ws : Worksheet) (src : String) : ∀ (rows : List Nat)
    (t d : Option String), GoodOpt t → GoodOpt d →
    ∀ rec ∈ process_rows ws src rows t d, GoodRecord rec := by
  intro rows
  induction rows with
  | nil =>
    intro t d _ _ rec hrec
    simp [process_rows] at hrec
  | cons r rest ih =>
    intro t d ht hd rec hrec
    simp only [process_rows] at hrec
    by_cases hf : row_has_footer_marker ws r = true
    · rw [if_pos hf] at hrec
      simp at hrec
    · rw [if_neg hf] at hrec
      have ht2 : GoodOpt (fillDownUpdate t (get_group ws r COLS_EQUIP_TAG " ")).2 :=
        (fillDown_goodOpt ht (get_group_goodOpt ws r COLS_EQUIP_TAG)).2
      have hd2 : GoodOpt (fillDownUpdate d (get_group ws r COLS_EQUIP_DESC " ")).2 :=
        (fillDown_goodOpt hd (get_group_goodOpt ws r COLS_EQUIP_DESC)).2
      by_cases hdta : row_has_any_data ws r = false
      · rw [if_pos hdta] at hrec
        exact ih t d ht hd rec hrec
      · rw [if_neg hdta] at hrec
        by_cases hsi : has_source_info (buildRecord ws src r t d) = true
        · rw [if_pos hsi] at hrec
          rcases List.mem_cons.mp hrec with rfl | hrec
          · exact buildRecord_good ws src r ht hd
          · exact ih _ _ ht2 hd2 rec hrec
        · rw [if_neg hsi] at hrec
          exact ih _ _ ht2 hd2 rec hrec

/-- The claim C10: every non-absent string produced by the normalizer, by
the grouper (with the program's separator), and hence every non-absent field
of an output record, is non-empty, has no newline or carriage return, no
leading/trailing whitespace, no double whitespace run, and is not a
sentinel token. -/
theorem claim_C10 :
    (∀ (v : CellValue) (s : String), normalize_cell v = Option.some s →
      goodOutput s = true) ∧
    (∀ (values : List CellValue) (s : String), join_valid values " " = Option.some s →
      goodOutput s = true) ∧
    (∀ (ws : Worksheet) (src : String) (rec : Record), rec ∈ process_workbook ws src →
      GoodRecord rec) := by
  refine ⟨?_, ?_, ?_⟩
  · intro v s h
    obtain ⟨_, hclean, hne, htok⟩ := normalize_some h
    exact goodOutput_of_clean hclean hne htok
  · intro values s h
    exact join_good h
  · intro ws src rec hrec
    exact process_rows_good ws src (sheetRows ws) Option.none Option.none
      (fun s hs => Option.noConfusion hs) (fun s hs => Option.noConfusion hs) rec hrec

theorem process_rowsA_snd (ws : Worksheet) (src : String) : ∀ (rows : List Nat)
    (t d : Option String),
    (process_rowsA ws src rows t d).map Prod.snd = process_rows ws src rows t d := by
  intro rows
  induction rows with
  | nil => intro t d; rfl
  | cons r rest ih =>
    intro t d
    simp only [process_rowsA, process_rows]
    by_cases hf : row_has_footer_marker ws r = true
    · rw [if_pos hf, if_pos hf]
      rfl
    · rw [if_neg hf, if_neg hf]
      by_cases hd : row_has_any_data ws r = false
      · rw [if_pos hd, if_pos hd]
        exact ih _ _
      · rw [if_neg hd, if_neg hd]
        by_cases hs : has_source_info (buildRecord ws src r t d) = true
        · rw [if_pos hs, if_pos hs]
          simp only [List.map_cons]
          rw [ih _ _]
        · rw [if_neg hs, if_neg hs]
          exact ih _ _

theorem process_rowsA_stop (ws : Worksheet) (src : String) (f : Nat)
    (hf : row_has_footer_marker ws f = true) : ∀ (l₁ l₂ : List Nat) (t d : Option String),
    process_rowsA ws src (l₁ ++ f :: l₂) t d = process_rowsA ws src l₁ t d := by
  intro l₁
  induction l₁ with
  | nil =>
    intro l₂ t d
    show process_rowsA ws src (f :: l₂) t d = process_rowsA ws src [] t d
    simp only [process_rowsA]
    rw [if_pos hf]
  | cons a l₁ ih =>
    intro l₂ t d
    simp only [List.cons_append, process_rowsA]
    by_cases ha : row_has_footer_marker ws a = true
    · rw [if_pos ha, if_pos ha]
    · rw [if_neg ha, if_neg ha]
      by_cases hd : row_has_any_data ws a = false
      · rw [if_pos hd, if_pos hd]
        exact ih _ _ _
      · rw [if_neg hd, if_neg hd]
        by_cases hs : has_source_info (buildRecord ws src a t d) = true
        · rw [if_pos hs, if_pos hs]
          exact congrArg _ (ih _ _ _)
        · rw [if_neg hs, if_neg hs]
          exact ih _ _ _

theorem process_rowsA_append (ws : Worksheet) (src : String) : ∀ (l₁ l₂ : List Nat)
    (t d : Option String), (∀ x ∈ l₁, row_has_footer_marker ws x = false) →
    process_rowsA ws src (l₁ ++ l₂) t d =
      process_rowsA ws src l₁ t d ++
        process_rowsA ws src l₂ (tagAfter ws l₁ t) (descAfter ws l₁ d) := by
  intro l₁
  induction l₁ with
  | nil => intro l₂ t d _; rfl
  | cons a l₁ ih =>
    intro l₂ t d h
    have ha := h a (List.mem_cons_self _ _)
    have ha' : ¬(row_has_footer_marker ws a = true) := by
      rw [ha]
      decide
    have htg : tagAfter ws (a :: l₁) t =
        tagAfter ws l₁ (if row_has_any_data ws a
          then (fillDownUpdate t (get_group ws a COLS_EQUIP_TAG " ")).2 else t) := by
      simp only [tagAfter, List.foldl_cons]
    have hdg : descAfter ws (a :: l₁) d =
        descAfter ws l₁ (if row_has_any_data ws a
          then (fillDownUpdate d (get_group ws a COLS_EQUIP_DESC " ")).2 else d) := by
      simp only [descAfter, List.foldl_cons]
    simp only [List.cons_append, process_rowsA]
    rw [if_neg ha', if_neg ha', htg, hdg]
    by_cases hd : row_has_any_data ws a = false
    · have hd' : ¬(row_has_any_data ws a = true) := by
        rw [hd]
        decide
      rw [if_pos hd, if_pos hd, if_neg hd', if_neg hd']
      exact ih l₂ t d (fun x hx => h x (List.mem_cons_of_mem _ hx))
    · have hd' : row_has_any_data ws a = true := by
        cases hq : row_has_any_data ws a
        · exact absurd hq hd
        · rfl
      rw [if_neg hd, if_neg hd, if_pos hd', if_pos hd']
      by_cases hs : has_source_info (buildRecord ws src a t d) = true
      · rw [if_pos hs, if_pos hs]
        exact congrArg _ (ih l₂ _ _ (fun x hx => h x (List.mem_cons_of_mem _ hx)))
      · rw [if_neg hs, if_neg hs]
        exact ih l₂ _ _ (fun x hx => h x (List.mem_cons_of_mem _ hx))

theorem process_rowsA_fst_sublist (ws : Worksheet) (src : String) : ∀ (rows : List Nat)
    (t d : Option String), List.Sublist ((process_rowsA ws src rows t d).map Prod.fst) rows := by
  intro rows
  induction rows with
  | nil => intro t d; exact List.nil_sublist _
  | cons r rest ih =>
    intro t d
    simp only [process_rowsA]
    by_cases hf : row_has_footer_marker ws r = true
    · rw [if_pos hf]
      exact List.nil_sublist _
    · rw [if_neg hf]
      by_cases hd : row_has_any_data ws r = false
      · rw [if_pos hd]
        exact (ih _ _).cons r
      · rw [if_neg hd]
        by_cases hs : has_source_info (buildRecord ws src r t d) = true
        · rw [if_pos hs]
          simp only [List.map_cons]
          exact (ih _ _).cons₂ r
        · rw [if_neg hs]
          exact (ih _ _).cons r

theorem process_rows_srcinfo (ws : Worksheet) (src : String) : ∀ (rows : List Nat)
    (t d : Option String), ∀ rec ∈ process_rows ws src rows t d,
    has_source_info rec = true := by
  intro rows
  induction rows with
  | nil =>
    intro t d rec hrec
    simp [process_rows] at hrec
  | cons r rest ih =>
    intro t d rec hrec
    simp only [process_rows] at hrec
    by_cases hf : row_has_footer_marker ws r = true
    · rw [if_pos hf] at hrec
      simp at hrec
    · rw [if_neg hf] at hrec
      by_cases hd : row_has_any_data ws r = false
      · rw [if_pos hd] at hrec
        exact ih _ _ rec hrec
      · rw [if_neg hd] at hrec
        by_cases hs : has_source_info (buildRecord ws src r t d) = true
        · rw [if_pos hs] at hrec
          rcases List.mem_cons.mp hrec with rfl | hrec
          · exact hs
          · exact ih _ _ rec hrec
        · rw [if_neg hs] at hrec
          exact ih _ _ rec hrec

/-- The claim C1: extraction stops at a footer row — the output equals what
the loop produces on the rows strictly before the footer row, and no record
is annotated with the footer row or any later row. -/
theorem claim_C1 (ws : Worksheet) (src : String) (f : Nat)
    (h1 : START_ROW ≤ f) (h2 : f ≤ maxRowEff ws)
    (hf : row_has_footer_marker ws f = true)
    (hfirst : ∀ r, START_ROW ≤ r → r < f → row_has_footer_marker ws r = false) :
    process_workbookA ws src =
      process_rowsA ws src (List.range' START_ROW (f - START_ROW))
        Option.none Option.none ∧
    (∀ p ∈ process_workbookA ws src, p.1 < f) := by
  have hsplit : sheetRows ws =
      List.range' START_ROW (f - START_ROW) ++ f :: List.range' (f + 1) (maxRowEff ws - f) := by
    unfold sheetRows
    have e1 : maxRowEff ws + 1 - START_ROW = (maxRowEff ws - f) + 1 + (f - START_ROW) := by
      omega
    rw [e1, ← List.range'_append_1 START_ROW (f - START_ROW) ((maxRowEff ws - f) + 1)]
    congr 1
    have e2 : START_ROW + (f - START_ROW) = f := by omega
    rw [e2, List.range'_succ]
  have heq : process_workbookA ws src =
      process_rowsA ws src (List.range' START_ROW (f - START_ROW))
        Option.none Option.none := by
    show process_rowsA ws src (sheetRows ws) Option.none Option.none = _
    rw [hsplit]
    exact process_rowsA_stop ws src f hf _ _ _ _
  refine ⟨heq, ?_⟩
  intro p hp
  rw [heq] at hp
  have hsub := process_rowsA_fst_sublist ws src
    (List.range' START_ROW (f - START_ROW)) Option.none Option.none
  have hmem : p.1 ∈ List.range' START_ROW (f - START_ROW) :=
    hsub.subset (List.mem_map_of_mem Prod.fst hp)
  obtain ⟨i, hi, hpi⟩ := List.mem_range'.mp hmem
  omega

theorem claim_C1_witness :
    START_ROW ≤ 12 ∧ 12 ≤ maxRowEff wsFoot ∧
    row_has_footer_marker wsFoot 12 = true ∧
    (process_workbookA wsFoot "m.xlsx" =
      process_rowsA wsFoot "m.xlsx" (List.range' START_ROW (12 - START_ROW))
        Option.none Option.none ∧
     (∀ p ∈ process_workbookA wsFoot "m.xlsx", p.1 < 12)) :=
  ⟨by decide, by decide, by decide,
   claim_C1 wsFoot "m.xlsx" 12 (by decide) (by decide) (by decide)
     (fun r hr1 hr2 => by
       have h11 : START_ROW = 11 := rfl
       rw [h11] at hr1
       have hr : r = 11 := by omega
       subst hr
       decide)⟩

/-- The claim C2: a kept record always has source info; at a reached data
row the candidate record is kept exactly when it has source info; and a row
whose six energy-source groups are all absent yields a candidate with no
source info (so only equipment data never produces a record). -/
theorem claim_C2 :
    (∀ (ws : Worksheet) (src : String) (rec : Record), rec ∈ process_workbook ws src →
      has_source_info rec = true) ∧
    (∀ (ws : Worksheet) (src : String) (r : Nat) (rest : List Nat) (t d : Option String),
      row_has_footer_marker ws r = false → row_has_any_data ws r = true →
      process_rows ws src (r :: rest) t d =
        (if has_source_info (buildRecord ws src r t d) = true
         then [buildRecord ws src r t d] else []) ++
          process_rows ws src rest (fillDownUpdate t (get_group ws r COLS_EQUIP_TAG " ")).2
            (fillDownUpdate d (get_group ws r COLS_EQUIP_DESC " ")).2) ∧
    (∀ (ws : Worksheet) (src : String) (r : Nat) (t d : Option String),
      get_group ws r COLS_FONTE_TAG " " = Option.none →
      get_group ws r COLS_FONTE_DESC " " = Option.none →
      get_group ws r COLS_COMO_BLOQUEAR " " = Option.none →
      get_group ws r COLS_ONDE_BLOQUEAR " " = Option.none →
      get_group ws r COLS_TIPO_BLOQUEIO " " = Option.none →
      get_group ws r COLS_COMO_DESBLOQUEAR " " = Option.none →
      has_source_info (buildRecord ws src r t d) = false) := by
  refine ⟨?_, ?_, ?_⟩
  · intro ws src rec hrec
    exact process_rows_srcinfo ws src (sheetRows ws) Option.none Option.none rec hrec
  · intro ws src r rest t d hf hd
    have hf' : ¬(row_has_footer_marker ws r = true) := by
      rw [hf]
      decide
    have hd' : ¬(row_has_any_data ws r = false) := by
      rw [hd]
      decide
    simp only [process_rows]
    rw [if_neg hf', if_neg hd']
    by_cases hs : has_source_info (buildRecord ws src r t d) = true
    · rw [if_pos hs, if_pos hs]
      rfl
    · rw [if_neg hs, if_neg hs]
      rfl
  · intro ws src r t d h1 h2 h3 h4 h5 h6
    simp [has_source_info, buildRecord, h1, h2, h3, h4, h5, h6]

/-- The claim C4: the output records are annotated with strictly increasing
row numbers — output order is ascending row order. -/
theorem claim_C4 (ws : Worksheet) (src : String) :
    List.Pairwise (fun a b => a < b) ((process_workbookA ws src).map Prod.fst) := by
  have hsub := process_rowsA_fst_sublist ws src (sheetRows ws) Option.none Option.none
  have hpw : List.Pairwise (fun a b => a < b) (sheetRows ws) := by
    unfold sheetRows
    exact List.pairwise_lt_range' START_ROW (maxRowEff ws + 1 - START_ROW)
  exact hpw.sublist hsub

/-- The claim C3: the fill-down update returns and stores a non-absent
current value and returns the stored value on an absent one; the update
sequence [absent, "X", absent, absent] yields [absent, "X", "X", "X"]; and a
kept record whose row has a blank equipment tag (or description) group
carries the fill-down state accumulated over the earlier rows. -/
theorem claim_C3 :
    (∀ (last : Option String) (x : String),
      fillDownUpdate last (Option.some x) = (Option.some x, Option.some x)) ∧
    (∀ last : Option String, fillDownUpdate last Option.none = (last, last)) ∧
    (fillDownRun Option.none [Option.none, Option.some "X", Option.none, Option.none] =
      [Option.none, Option.some "X", Option.some "X", Option.some "X"]) ∧
    (∀ (ws : Worksheet) (src : String) (l₁ : List Nat) (r : Nat) (l₂ : List Nat)
      (t d : Option String),
      (∀ x ∈ l₁, row_has_footer_marker ws x = false) →
      row_has_footer_marker ws r = false →
      row_has_any_data ws r = true →
      has_source_info (buildRecord ws src r (tagAfter ws l₁ t) (descAfter ws l₁ d)) = true →
      ∃ rec, (r, rec) ∈ process_rowsA ws src (l₁ ++ r :: l₂) t d ∧
        (get_group ws r COLS_EQUIP_TAG " " = Option.none →
          rec.tag_do_equipamento = tagAfter ws l₁ t) ∧
        (get_group ws r COLS_EQUIP_DESC " " = Option.none →
          rec.descricao_do_equipamento = descAfter ws l₁ d)) := by
  refine ⟨fun last x => rfl, fun last => rfl, rfl, ?_⟩
  intro ws src l₁ r l₂ t d hnf hf hd hs
  refine ⟨buildRecord ws src r (tagAfter ws l₁ t) (descAfter ws l₁ d), ?_, ?_, ?_⟩
  · rw [process_rowsA_append ws src l₁ (r :: l₂) t d hnf]
    apply List.mem_append_right
    have hf' : ¬(row_has_footer_marker ws r = true) := by
      rw [hf]
      decide
    have hd' : ¬(row_has_any_data ws r = false) := by
      rw [hd]
      decide
    simp only [process_rowsA]
    rw [if_neg hf', if_neg hd', if_pos hs]
    exact List.mem_cons_self _ _
  · intro hg
    show (fillDownUpdate (tagAfter ws l₁ t) (get_group ws r COLS_EQUIP_TAG " ")).1 =
      tagAfter ws l₁ t
    rw [hg]
    rfl
  · intro hg
    show (fillDownUpdate (descAfter ws l₁ d) (get_group ws r COLS_EQUIP_DESC " ")).1 =
      descAfter ws l₁ d
    rw [hg]
    rfl

theorem claim_C3_witness :
    row_has_footer_marker wsFill 11 = false ∧
    row_has_footer_marker wsFill 12 = false ∧
    row_has_any_data wsFill 12 = true ∧
    has_source_info (buildRecord wsFill "a.xlsx" 12
      (tagAfter wsFill [11] Option.none) (descAfter wsFill [11] Option.none)) = true ∧
    get_group wsFill 12 COLS_EQUIP_TAG " " = Option.none ∧
    tagAfter wsFill [11] Option.none = Option.some "EQ-1" ∧
    (∃ rec, (12, rec) ∈ process_rowsA wsFill "a.xlsx" ([11] ++ 12 :: [])
        Option.none Option.none ∧
      (get_group wsFill 12 COLS_EQUIP_TAG " " = Option.none →
        rec.tag_do_equipamento = tagAfter wsFill [11] Option.none) ∧
      (get_group wsFill 12 COLS_EQUIP_DESC " " = Option.none →
        rec.descricao_do_equipamento = descAfter wsFill [11] Option.none)) :=
  ⟨by decide, by decide, by decide, by decide, by decide, by decide,
   claim_C3.2.2.2 wsFill "a.xlsx" [11] 12 [] Option.none Option.none
     (fun x hx => by
       rcases List.mem_cons.mp hx with rfl | hx
       · decide
       · exact absurd hx (List.not_mem_nil x))
     (by decide) (by decide) (by decide)⟩

theorem claim_C2_witness :
    row_has_footer_marker wsEq 11 = false ∧
    row_has_any_data wsEq 11 = true ∧
    (process_rows wsEq "e.xlsx" [11] Option.none Option.none =
      (if has_source_info (buildRecord wsEq "e.xlsx" 11 Option.none Option.none) = true
       then [buildRecord wsEq "e.xlsx" 11 Option.none Option.none] else []) ++
        process_rows wsEq "e.xlsx" []
          (fillDownUpdate Option.none (get_group wsEq 11 COLS_EQUIP_TAG " ")).2
          (fillDownUpdate Option.none (get_group wsEq 11 COLS_EQUIP_DESC " ")).2) ∧
    has_source_info (buildRecord wsEq "e.xlsx" 11 Option.none Option.none) = false ∧
    process_workbook wsEq "e.xlsx" = [] :=
  ⟨by decide, by decide,
   claim_C2.2.1 wsEq "e.xlsx" 11 [] Option.none Option.none (by decide) (by decide),
   claim_C2.2.2 wsEq "e.xlsx" 11 Option.none Option.none (by decide) (by decide)
     (by decide) (by decide) (by decide) (by decide),
   by decide⟩

theorem digitChar_ne_dot (m : Nat) : ¬(Nat.digitChar m = '.') := by
  by_cases h16 : m < 16
  · interval_cases m <;> decide
  · intro h
    unfold Nat.digitChar at h
    rw [if_neg (by omega : ¬(m = 0)), if_neg (by omega : ¬(m = 1)),
      if_neg (by omega : ¬(m = 2)), if_neg (by omega : ¬(m = 3)),
      if_neg (by omega : ¬(m = 4)), if_neg (by omega : ¬(m = 5)),
      if_neg (by omega : ¬(m = 6)), if_neg (by omega : ¬(m = 7)),
      if_neg (by omega : ¬(m = 8)), if_neg (by omega : ¬(m = 9)),
      if_neg (by omega : ¬(m = 10)), if_neg (by omega : ¬(m = 11)),
      if_neg (by omega : ¬(m = 12)), if_neg (by omega : ¬(m = 13)),
      if_neg (by omega : ¬(m = 14)), if_neg (by omega : ¬(m = 15))] at h
    exact absurd h (by decide)

theorem toDigitsCore_no_dot : ∀ (fuel n : Nat) (ds : List Char),
    (∀ c ∈ ds, ¬(c = '.')) → ∀ c ∈ Nat.toDigitsCore 10 fuel n ds, ¬(c = '.') := by
  intro fuel
  induction fuel with
  | zero => intro n ds h c hc; exact h c hc
  | succ fuel ih =>
    intro n ds h c hc
    simp only [Nat.toDigitsCore] at hc
    by_cases hq : n / 10 = 0
    · rw [if_pos hq] at hc
      rcases List.mem_cons.mp hc with rfl | hc
      · exact digitChar_ne_dot _
      · exact h c hc
    · rw [if_neg hq] at hc
      refine ih (n / 10) (Nat.digitChar (n % 10) :: ds) ?_ c hc
      intro x hx
      rcases List.mem_cons.mp hx with rfl | hx
      · exact digitChar_ne_dot _
      · exact h x hx

theorem natRepr_no_dot (m : Nat) : ¬('.' ∈ (Nat.repr m).data) := by
  have hd : (Nat.repr m).data = Nat.toDigitsCore 10 (m + 1) m [] := rfl
  rw [hd]
  intro h
  exact toDigitsCore_no_dot (m + 1) m [] (fun c hc => absurd hc (List.not_mem_nil c)) '.' h rfl

theorem intStr_no_dot (n : Int) : ¬('.' ∈ (intStr n).data) := by
  cases n with
  | ofNat m => exact natRepr_no_dot m
  | negSucc m =>
    intro h
    have hd : (intStr (Int.negSucc m)).data = '-' :: (Nat.repr (m + 1)).data := rfl
    rw [hd] at h
    rcases List.mem_cons.mp h with hc | hc
    · exact absurd hc (by decide)
    · exact natRepr_no_dot (m + 1) hc

/-- The claim C8: an integral numeric cell (int, or float whose exact value
is a whole number) renders as the integer's decimal text, which contains no
decimal point; a non-integral float renders as Python's default float
string. -/
theorem claim_C8 :
    (∀ (q : Rat) (fr : String), q.den = 1 →
      renderValue (CellValue.float q fr) = renderValue (CellValue.int q.num) ∧
      ¬('.' ∈ (renderValue (CellValue.float q fr)).data)) ∧
    (∀ (q : Rat) (fr : String), ¬(q.den = 1) →
      renderValue (CellValue.float q fr) = fr) ∧
    (∀ n : Int, renderValue (CellValue.int n) = intStr n ∧
      ¬('.' ∈ (renderValue (CellValue.int n)).data)) := by
  refine ⟨?_, ?_, ?_⟩
  · intro q fr hq
    have he : renderValue (CellValue.float q fr) = intStr q.num := by
      simp only [renderValue]
      rw [if_pos hq]
    constructor
    · rw [he]
      rfl
    · rw [he]
      exact intStr_no_dot q.num
  · intro q fr hq
    simp only [renderValue]
    rw [if_neg hq]
  · intro n
    exact ⟨rfl, intStr_no_dot n⟩

theorem claim_C8_witness :
    (2 : Rat).den = 1 ∧
    renderValue (CellValue.float 2 "2.0") = renderValue (CellValue.int (2 : Rat).num) ∧
    ¬('.' ∈ (renderValue (CellValue.float 2 "2.0")).data) ∧
    ¬((mkRat 5 2).den = 1) ∧
    renderValue (CellValue.float (mkRat 5 2) "2.5") = "2.5" :=
  ⟨by decide, (claim_C8.1 2 "2.0" (by decide)).1, (claim_C8.1 2 "2.0" (by decide)).2,
   by decide, claim_C8.2.1 (mkRat 5 2) "2.5" (by decide)⟩

theorem runBatchAux_spec : ∀ (files : List InputFile) (recs : List Record) (p : Nat)
    (failed : List (String × String)),
    runBatchAux files recs p failed =
      (recs ++ (files.map fileRecords).flatten, p + files.countP fileOk,
       failed ++ files.filterMap fileErr) := by
  intro files
  induction files with
  | nil =>
    intro recs p failed
    simp [runBatchAux]
  | cons f fs ih =>
    intro recs p failed
    cases hf : f.outcome with
    | ok rs =>
      have hstep : runBatchAux (f :: fs) recs p failed =
          runBatchAux fs (recs ++ rs) (p + 1) failed := by
        simp only [runBatchAux, hf]
      have h1 : fileRecords f = rs := by simp [fileRecords, hf]
      have h2 : fileOk f = true := by simp [fileOk, hf]
      have h3 : fileErr f = Option.none := by simp [fileErr, hf]
      rw [hstep, ih]
      simp [Prod.ext_iff, h1, h2, h3, List.countP_cons, List.filterMap_cons, List.append_assoc]
      omega
    | error e =>
      have hstep : runBatchAux (f :: fs) recs p failed =
          runBatchAux fs recs p (failed ++ [(f.name, e)]) := by
        simp only [runBatchAux, hf]
      have h1 : fileRecords f = [] := by simp [fileRecords, hf]
      have h2 : fileOk f = false := by simp [fileOk, hf]
      have h3 : fileErr f = Option.some (f.name, e) := by simp [fileErr, hf]
      rw [hstep, ih]
      simp [Prod.ext_iff, h1, h2, h3, List.countP_cons, List.filterMap_cons, List.append_assoc]

/-- The claim C9: the batch driver records a failing file's name and error,
takes no records from it, still processes every other file, and the
consolidated output is exactly the successful files' records in file order
(in particular the three-file scenario with the middle file failing). -/
theorem claim_C9 :
    (∀ files : List InputFile, runBatch files =
      ((files.map fileRecords).flatten, files.countP fileOk, files.filterMap fileErr)) ∧
    (∀ (f1 f2 f3 : InputFile) (e : String) (rs1 rs3 : List Record),
      f1.outcome = Except.ok rs1 → f2.outcome = Except.error e →
      f3.outcome = Except.ok rs3 →
      runBatch [f1, f2, f3] = (rs1 ++ rs3, 2, [(f2.name, e)])) := by
  have hgen : ∀ files : List InputFile, runBatch files =
      ((files.map fileRecords).flatten, files.countP fileOk, files.filterMap fileErr) := by
    intro files
    unfold runBatch
    rw [runBatchAux_spec]
    simp
  refine ⟨hgen, ?_⟩
  intro f1 f2 f3 e rs1 rs3 h1 h2 h3
  rw [hgen]
  simp [fileRecords, fileOk, fileErr, h1, h2, h3, List.countP_cons]

theorem claim_C9_witness :
    fileA.outcome = Except.ok [sampleRec] ∧
    fileB.outcome = Except.error "Timeout convertendo .xls" ∧
    fileC.outcome = Except.ok [] ∧
    runBatch [fileA, fileB, fileC] =
      ([sampleRec] ++ [], 2, [("b.xls", "Timeout convertendo .xls")]) :=
  ⟨rfl, rfl, rfl,
   claim_C9.2 fileA fileB fileC "Timeout convertendo .xls" [sampleRec] [] rfl rfl rfl⟩

theorem claim_C10_witness :
    normalize_cell (CellValue.str "  a\nb  ") = Option.some "a b" ∧
    goodOutput "a b" = true ∧
    join_valid [CellValue.str "Rede", CellValue.str "-"] " " = Option.some "Rede" ∧
    goodOutput "Rede" = true ∧
    recFill12 ∈ process_workbook wsFill "a.xlsx" ∧
    GoodRecord recFill12 :=
  ⟨by decide, claim_C10.1 (CellValue.str "  a\nb  ") "a b" (by decide),
   by decide, claim_C10.2.1 [CellValue.str "Rede", CellValue.str "-"] "Rede" (by decide),
   by decide, claim_C10.2.2 wsFill "a.xlsx" recFill12 (by decide)⟩
